import Mathlib

/-!
Verification of the `trpc-formdata` client library against its design
specification.

The development shallowly embeds the three source modules:

* `src/client.ts` — the conditional transport-selection link
  (`formDataLink`), the transport-fetch adapter (`fetchFn`) with its
  inline header sanitisation, and the transformer bypass adjustment
  (the `if` block over `opts.transformer`);
* `src/util.ts` — `objectToFormData` / `formDataToObject`;
* `src/zod.ts` (zod/v4 variant) — `filesSchema`.

JavaScript runtime values are modelled by small inductive types; plain
objects are modelled as association lists of own enumerable properties in
insertion order, and where the code uses the `in` operator on a plain
`{}` accumulator the inherited `Object.prototype` keys are modelled too.
Machine-level concerns (promises, the event loop) are abstracted: an
asynchronous fetch result is an `Except` value, so a rejected promise is
an `Except.error` that the embedding passes around like any other
value.
-/

/-- A JavaScript runtime value as far as the routing predicate of
`formDataLink` can observe it: `op.input instanceof FormData` only needs
to distinguish `FormData` instances from everything else.  Plain objects
and `FormData` instances carry their string entries. -/
inductive JSValue where
  | undef
  | nullV
  | boolean (b : Bool)
  | number (n : Int)
  | string (s : String)
  | object (fields : List (String × String))
  | formData (entries : List (String × String))
deriving DecidableEq

/-- `v instanceof FormData` (src/client.ts line 31).  The JavaScript
`instanceof` test against the `FormData` constructor is total: it returns
`false` on every non-`FormData` value, including `undefined` and `null`,
and never throws.  The embedding is a total `Bool`-valued function. -/
def instanceOfFormData : JSValue → Bool
  | JSValue.formData _ => true
  | _ => false

/-- An outgoing call descriptor (`op`): the input value plus opaque
framework call metadata (here a path string). -/
structure Op where
  input : JSValue
  path : String

/-- A header set: mapping of header name to value, case-sensitive keys,
in insertion order (a JavaScript `Record<string, string>`). -/
abbrev Headers := List (String × String)

/-- The body field of a fetch `RequestInit`. -/
inductive Body where
  | formDataBody (entries : List (String × String))
  | stringBody (s : String)
  | emptyBody
deriving DecidableEq

/-- `options?.body instanceof FormData` (src/client.ts line 47). -/
def Body.isFormDataBody : Body → Bool
  | Body.formDataBody _ => true
  | _ => false

/-- The options object passed to a fetch function (`RequestInit`):
`headers` and `body` are the fields `fetchFn` reads; `method` and `extra`
stand for every other option field, passed through untouched. -/
structure RequestOptions where
  headers : Headers := []
  body : Body := Body.emptyBody
  method : Option String := none
  extra : List (String × String) := []
deriving DecidableEq

/-- A network response handle (opaque to this core). -/
structure Response where
  status : Nat
  payload : String
deriving DecidableEq

/-- The result of a fetch call: either a response handle or a network
failure carried on the error channel (a rejected promise). -/
abbrev FetchResult := Except String Response

/-- A fetch-like function (`FetchEsque`): the second argument is optional,
as in the platform fetch signature. -/
abbrev RawFetch := String → Option RequestOptions → FetchResult

/-- The header-sanitisation step inlined in `fetchFn`
(src/client.ts lines 46–54), named `sanitize` after spec §4.1: when the
body is multipart, drop the entry whose key is case-sensitively equal to
`"Content-Type"` (the destructuring
`const { "Content-Type": _, ...restHeaders } = headers`); otherwise the
header set is passed through as the copy `{ ...options?.headers }`. -/
def sanitize (headers : Headers) (isMultipartBody : Bool) : Headers :=
  if isMultipartBody then
    headers.filter (fun kv => kv.1 ≠ "Content-Type")
  else
    headers

/-- The transport-fetch adapter `fetchFn` (src/client.ts lines 41–62).
`ambient` is the platform global `fetch` that the source falls back to via
`providedFetch ?? fetch`.  Mirrors the source step by step: read
`options?.headers` (an absent options object yields the empty copy
`{ ...undefined } = {}`), test `options?.body instanceof FormData`,
sanitise, then delegate with `{ ...options, headers }` — headers replaced,
every other field of `options` spread through unchanged.  The delegate's
result is returned as-is: no await before returning, no inspection, no
error handling. -/
def fetchFn (ambient : RawFetch) (providedFetch : Option RawFetch) : RawFetch :=
  fun url options =>
    let headers0 : Headers :=
      match options with
      | some o => o.headers
      | none => []
    let isFormData : Bool :=
      match options with
      | some o => o.body.isFormDataBody
      | none => false
    let headers := sanitize headers0 isFormData
    let newOptions : RequestOptions := { options.getD {} with headers := headers }
    (providedFetch.getD ambient) url (some newOptions)

/-- The value of the `transformer` option.  The source's checks
(src/client.ts lines 19–23) distinguish: absent (`undefined`), `null`
(typeof `"object"` but falsy), a single function serving both directions
(`typeof` is `"function"`, not `"object"`), and a plain object whose
`serialize` / `deserialize` properties may each be present or absent. -/
inductive TransformerVal where
  | undef
  | nullT
  | func (f : JSValue → JSValue)
  | obj (serialize : Option (JSValue → JSValue)) (deserialize : Option (JSValue → JSValue))

/-- Truthiness of a transformer value (`opts?.transformer &&`):
`undefined` and `null` are falsy, functions and objects are truthy. -/
def TransformerVal.truthy : TransformerVal → Bool
  | TransformerVal.undef => false
  | TransformerVal.nullT => false
  | TransformerVal.func _ => true
  | TransformerVal.obj _ _ => true

/-- `typeof opts.transformer === "object"`: true for objects and for
`null` (JavaScript's `typeof null` is `"object"`), false for functions
(`typeof` is `"function"`) and `undefined`. -/
def TransformerVal.typeofIsObject : TransformerVal → Bool
  | TransformerVal.obj _ _ => true
  | TransformerVal.nullT => true
  | _ => false

/-- `"deserialize" in opts.transformer`: property-presence test.  In the
source this is only evaluated after the truthiness and `typeof` guards,
so it only ever runs on plain objects. -/
def TransformerVal.hasDeserialize : TransformerVal → Bool
  | TransformerVal.obj _ d => d.isSome
  | _ => false

/-- The guard of the transformer-adjustment block (src/client.ts
lines 19–23): `opts?.transformer && typeof opts.transformer === "object"
&& "deserialize" in opts.transformer`. -/
def shouldAdjustTransformer (t : TransformerVal) : Bool :=
  t.truthy && t.typeofIsObject && t.hasDeserialize

/-- `opts.transformer.deserialize` read off the transformer object. -/
def TransformerVal.deserializeField : TransformerVal → Option (JSValue → JSValue)
  | TransformerVal.obj _ d => d
  | _ => none

/-- The transformer bypass adjustment (src/client.ts lines 19–28): when
the guard holds, the adjusted options carry the fresh object
`{ serialize: (data) => data, deserialize: opts.transformer.deserialize }`;
otherwise the transformer field keeps the value copied by the spread. -/
def adjustTransformer (t : TransformerVal) : TransformerVal :=
  if shouldAdjustTransformer t then
    TransformerVal.obj (some fun data => data) t.deserializeField
  else
    t

/-- The link-configuration object `opts` (`HTTPLinkOptions`): target url,
optional custom fetch, optional transformer, and `extra` standing for all
other passthrough options. -/
structure OptsObj where
  url : String
  fetch : Option RawFetch
  transformer : TransformerVal
  extra : List (String × String)

/-- A default (empty-ish) options object, used only to totalise heap
reads. -/
def OptsObj.defaultObj : OptsObj :=
  { url := "", fetch := none, transformer := TransformerVal.undef, extra := [] }

instance : Inhabited OptsObj := ⟨OptsObj.defaultObj⟩

/-- A terminating link of the split: the single-request transport
`httpLink(cfg)`, the batching transport `httpBatchLink(cfg)`, or a
caller-supplied `TRPCLink` override (opaque, identified by a tag). -/
inductive Link where
  | http (cfg : OptsObj)
  | httpBatch (cfg : OptsObj)
  | custom (tag : Nat)

/-- The composite link returned by `splitLink`: a routing predicate over
the call descriptor and the two pre-built branch links. -/
structure SplitLink where
  condition : Op → Bool
  trueLink : Link
  falseLink : Link

/-- Per-call routing of a `splitLink`: evaluate the predicate once,
synchronously, and hand the call to the corresponding pre-built link. -/
def SplitLink.route (l : SplitLink) (op : Op) : Link :=
  if l.condition op then l.trueLink else l.falseLink

/-- `formDataLink` (src/client.ts lines 10–36) as a value-level function:
derive `optsAdjusted = { ...opts, fetch: fetchFn(opts.fetch) }`,
conditionally replace its `transformer`, and build the split link whose
true branch is `httpLink(optsAdjusted)` and whose false branch is
`falseCaseOverride ?? httpBatchLink(opts)` over the original `opts`. -/
def formDataLink (ambient : RawFetch) (opts : OptsObj)
    (falseCaseOverride : Option Link) : SplitLink :=
  let optsAdjusted0 : OptsObj :=
    { opts with fetch := some (fetchFn ambient opts.fetch) }
  let optsAdjusted : OptsObj :=
    if shouldAdjustTransformer opts.transformer then
      { optsAdjusted0 with transformer := adjustTransformer opts.transformer }
    else
      optsAdjusted0
  { condition := fun op => instanceOfFormData op.input
    trueLink := Link.http optsAdjusted
    falseLink := falseCaseOverride.getD (Link.httpBatch opts) }

/-!
### Heap model of link construction

`formDataLink`'s body is imperative: it allocates the spread copy
`optsAdjusted` and then mutates that copy's `transformer` field in place.
To settle the frame claims (the caller's `opts` object is never written,
and exactly one derived configuration object is allocated per link
construction) we re-run the same body over an explicit heap of options
objects, addressed by index.
-/

/-- A heap of options objects; an address is an index, allocation
appends. -/
abbrev Heap := List OptsObj

/-- Allocate a fresh object, returning the new heap and its address. -/
def Heap.alloc (h : Heap) (o : OptsObj) : Heap × Nat :=
  (h ++ [o], h.length)

/-- Read the object at an address (the default object if dangling). -/
def Heap.read (h : Heap) (a : Nat) : OptsObj :=
  (h[a]?).getD OptsObj.defaultObj

/-- The in-place field write `target.transformer = t`. -/
def Heap.writeTransformer (h : Heap) (a : Nat) (t : TransformerVal) : Heap :=
  h.set a { h.read a with transformer := t }

/-- `formDataLink` re-run over the explicit heap: `a` is the address of
the caller's `opts` object.  The spread `{ ...opts, fetch: ... }`
allocates a fresh object; the conditional transformer assignment writes
to that fresh address only; the returned split link is built from values
read back out of the final heap. -/
def formDataLinkHeap (ambient : RawFetch) (h : Heap) (a : Nat)
    (falseCaseOverride : Option Link) : Heap × SplitLink :=
  let opts := h.read a
  let alloc1 := h.alloc { opts with fetch := some (fetchFn ambient opts.fetch) }
  let h1 := alloc1.1
  let aAdj := alloc1.2
  let h2 :=
    if shouldAdjustTransformer opts.transformer then
      h1.writeTransformer aAdj (adjustTransformer opts.transformer)
    else
      h1
  (h2,
   { condition := fun op => instanceOfFormData op.input
     trueLink := Link.http (h2.read aAdj)
     falseLink := falseCaseOverride.getD (Link.httpBatch opts) })

/-!
### `src/util.ts` — object ↔ FormData conversion

A text-only `FormData` is its entry list in append order; a plain object
is an association list of its own enumerable properties in insertion
order (keys unique).  `formDataToObject` rebuilds the object with a plain
`{}` accumulator and tests keys with the JavaScript `in` operator, which
consults the prototype chain: a key that names an `Object.prototype`
member (`toString`, `valueOf`, …) is "present" on the empty object, and
reading it yields the inherited member — so the inherited builtin can
leak into a rebuilt array.  The embedding models this: own properties as
the association list, plus the fixed key set of `Object.prototype`.
-/

/-- An item of an array value: a string, or a builtin function inherited
from `Object.prototype` (identified by the key it is inherited at) that
leaked into the array via the `in` test. -/
inductive JsItem where
  | str (s : String)
  | builtinFn (key : String)
deriving DecidableEq

/-- A field value of a plain object: a string or an array of items. -/
inductive FieldValue where
  | str (s : String)
  | arr (items : List JsItem)
deriving DecidableEq

/-- The claim's value domain: a string, or an array all of whose items
are strings. -/
def FieldValue.plain : FieldValue → Bool
  | FieldValue.str _ => true
  | FieldValue.arr items =>
      items.all fun i => match i with | JsItem.str _ => true | _ => false

/-- A plain object: own enumerable string-keyed properties in insertion
order. -/
abbrev ObjectM := List (String × FieldValue)

/-- A `FormData` instance: its entries in append order. -/
abbrev FormDataM := List (String × String)

/-- `FormData.append` coerces a non-string value to its string form;
strings pass through unchanged. -/
def jsItemToString : JsItem → String
  | JsItem.str s => s
  | JsItem.builtinFn k => "function " ++ k ++ "() { [native code] }"

/-- `objectToFormData` (src/util.ts lines 8–19): `for key in data`, array
values append each item under the key, other values append once. -/
def objectToFormData : ObjectM → FormDataM
  | [] => []
  | (k, FieldValue.arr items) :: rest =>
      items.map (fun item => (k, jsItemToString item)) ++ objectToFormData rest
  | (k, FieldValue.str s) :: rest =>
      (k, s) :: objectToFormData rest

/-- Own-property read on the object model: what `obj[key]` returns when
the key is an own property, and what assignment overwrites. -/
def objLookup : ObjectM → String → Option FieldValue
  | [], _ => none
  | (k, v) :: rest, key => if k = key then some v else objLookup rest key

/-- Property assignment `obj[key] = v`: overwrite the own property in
place when it exists (insertion order kept), append otherwise. -/
def objSet : ObjectM → String → FieldValue → ObjectM
  | [], key, v => [(key, v)]
  | (k, w) :: rest, key, v =>
      if k = key then (key, v) :: rest else (k, w) :: objSet rest key v

/-- The property names of `Object.prototype`, the prototype of the plain
`{}` accumulator: the `in` operator sees all of these as present on any
plain object.  All but `"__proto__"` are function-valued data
properties; `"__proto__"` is an inherited accessor. -/
def objectProtoKeys : List String :=
  ["constructor", "hasOwnProperty", "isPrototypeOf", "propertyIsEnumerable",
   "toLocaleString", "toString", "valueOf", "__defineGetter__",
   "__defineSetter__", "__lookupGetter__", "__lookupSetter__", "__proto__"]

/-- The `key in obj` test (src/util.ts line 31): true when the key is an
own property *or* a property of the prototype chain — for a plain `{}`
accumulator, a property of `Object.prototype`. -/
def keyInObj (obj : ObjectM) (key : String) : Bool :=
  (objLookup obj key).isSome || decide (key ∈ objectProtoKeys)

/-- The loop body of `formDataToObject` (src/util.ts lines 30–40) for one
entry `(key, value)`.  `if (key in obj)` consults the prototype chain;
inside that branch `obj[key]` reads the own property when there is one,
else the inherited `Object.prototype` member.  An inherited member is
never an array, so `Array.isArray` fails and the code stores
`[obj[key], value]` — for the function-valued members this creates an own
property whose array holds the inherited builtin.  Writing through the
inherited `"__proto__"` accessor instead mutates the object's prototype
and creates no own property; the embedding records no own entry there
(the ensuing prototype mutation is not tracked — no theorem below
evaluates the step at `"__proto__"`, which the round-trip hypotheses
exclude along with every other prototype key). -/
def formDataEntryStep (obj : ObjectM) (key : String) (value : String) : ObjectM :=
  if keyInObj obj key then
    match objLookup obj key with
    | some (FieldValue.arr items) =>
        objSet obj key (FieldValue.arr (items ++ [JsItem.str value]))
    | some (FieldValue.str old) =>
        objSet obj key (FieldValue.arr [JsItem.str old, JsItem.str value])
    | none =>
        if key = "__proto__" then obj
        else objSet obj key (FieldValue.arr [JsItem.builtinFn key, JsItem.str value])
  else
    objSet obj key (FieldValue.str value)

/-- The `for (const [key, value] of formData.entries())` loop of
`formDataToObject`, folding the entry step over a tail of the entries
from an accumulated object. -/
def entryFold (obj : ObjectM) (fd : FormDataM) : ObjectM :=
  fd.foldl (fun o e => formDataEntryStep o e.1 e.2) obj

/-- `formDataToObject` (src/util.ts lines 28–42): run the entry loop over
the `FormData` entries in order, starting from the empty object. -/
def formDataToObject (fd : FormDataM) : ObjectM :=
  entryFold [] fd

/-- Specification-side description of one round-tripped field: an empty
array is dropped, a one-element array collapses to its bare element,
strings and arrays of length ≥ 2 survive unchanged. -/
def collapseValue (k : String) : FieldValue → ObjectM
  | FieldValue.arr [] => []
  | FieldValue.arr [JsItem.str v] => [(k, FieldValue.str v)]
  | v => [(k, v)]

/-- Specification-side description of the whole round trip:
`formDataToObject ∘ objectToFormData` should equal this field-wise
collapse. -/
def collapseObject : ObjectM → ObjectM
  | [] => []
  | (k, v) :: rest => collapseValue k v ++ collapseObject rest

/-!
### `src/zod.ts` (zod/v4 variant) — `filesSchema`

zod/v4 schemas are immutable: `.min`, `.max` and `.mime` each return a
*new* schema and leave the receiver unchanged.  A schema is modelled by
its acceptance predicate (custom error-message text does not affect which
inputs validate).  `filesSchema`'s builder calls these combinators but
never keeps their results — the embedding mirrors those discarded
expression statements as `let _ := …` bindings.
-/

/-- A value reaching zod validation after `formDataToObject`: a `File`
(size in bytes and MIME type), a string, an array, or anything else. -/
inductive ZVal where
  | fileV (size : Nat) (mime : String)
  | strV (s : String)
  | arrV (items : List ZVal)
  | otherV (tag : String)

/-- A zod schema, modelled by its acceptance predicate. -/
abbrev ZCheck := ZVal → Bool

/-- `z.file()`: accepts exactly `File` instances. -/
def zfile : ZCheck := fun v =>
  match v with
  | ZVal.fileV _ _ => true
  | _ => false

/-- `fileSchema.min(n, msg)`: a *new* schema also requiring size ≥ n
(receiver unchanged — zod/v4 schemas are immutable). -/
def zfileMin (s : ZCheck) (n : Nat) (_msg : Option String) : ZCheck := fun v =>
  s v && (match v with | ZVal.fileV size _ => decide (n ≤ size) | _ => false)

/-- `fileSchema.max(n, msg)`: a *new* schema also requiring size ≤ n. -/
def zfileMax (s : ZCheck) (n : Nat) (_msg : Option String) : ZCheck := fun v =>
  s v && (match v with | ZVal.fileV size _ => decide (size ≤ n) | _ => false)

/-- `fileSchema.mime(types, msg)`: a *new* schema also requiring the MIME
type to be in the list. -/
def zfileMime (s : ZCheck) (types : List String) (_msg : Option String) : ZCheck := fun v =>
  s v && (match v with | ZVal.fileV _ m => types.contains m | _ => false)

/-- `z.array(s)`: accepts arrays all of whose items pass `s`. -/
def zarray (s : ZCheck) : ZCheck := fun v =>
  match v with
  | ZVal.arrV items => items.all s
  | _ => false

/-- `arraySchema.min(n, msg)`: a *new* schema also requiring length ≥ n. -/
def zarrayMin (s : ZCheck) (n : Nat) (_msg : Option String) : ZCheck := fun v =>
  s v && (match v with | ZVal.arrV items => decide (n ≤ items.length) | _ => false)

/-- `arraySchema.max(n, msg)`: a *new* schema also requiring length ≤ n. -/
def zarrayMax (s : ZCheck) (n : Nat) (_msg : Option String) : ZCheck := fun v =>
  s v && (match v with | ZVal.arrV items => decide (items.length ≤ n) | _ => false)

/-- The test `v !== "null"` used by the preprocess filter: true exactly on
the string `"null"` (strict equality against a string literal). -/
def isNullPlaceholder : ZVal → Bool
  | ZVal.strV s => s = "null"
  | _ => false

/-- The preprocess step `(val as []).filter((v) => v !== "null")`
(src/zod.ts line 184): on an array, drop the `"null"` placeholders; on
any other value `.filter` is not a function and a `TypeError` escapes. -/
def preprocessFilter (val : ZVal) : Except String ZVal :=
  match val with
  | ZVal.arrV items => Except.ok (ZVal.arrV (items.filter (fun v => !isNullPlaceholder v)))
  | _ => Except.error "TypeError: val.filter is not a function"

/-- The options record of `filesSchema` (src/zod.ts lines 168–174). -/
structure FilesOptions where
  minSize : Option Nat := none
  maxSize : Option Nat := none
  minFiles : Option Nat := none
  maxFiles : Option Nat := none
  acceptedMimeTypes : Option (List String) := none

/-- The custom error messages of `filesSchema` (src/zod.ts
lines 175–181). -/
structure FilesErrors where
  fileTooSmall : Option String := none
  fileTooLarge : Option String := none
  invalidMimeType : Option String := none
  tooFewFiles : Option String := none
  tooManyFiles : Option String := none

/-- `filesSchema` (src/zod.ts lines 167–227), as the parse function of
the schema it returns.  The builder mirrors the source line by line: each
constraint combinator is invoked exactly when the source invokes it, and
its result is discarded exactly as the source discards it (the source
never rebinds `fileSchema` / `arraySchema`, so the kept schemas are the
bare `z.file()` and `z.array(fileSchema)`). -/
def filesSchema (options : Option FilesOptions) (errors : Option FilesErrors)
    (val : ZVal) : Except String ZVal :=
  match preprocessFilter val with
  | Except.error e => Except.error e
  | Except.ok pre =>
    let fileSchema := zfile
    let _ := (options.bind (·.minSize)).map fun n =>
      zfileMin fileSchema n (errors.bind (·.fileTooSmall))
    let _ := (options.bind (·.maxSize)).map fun n =>
      zfileMax fileSchema n (errors.bind (·.fileTooLarge))
    let _ := (options.bind (·.acceptedMimeTypes)).map fun ts =>
      zfileMime fileSchema ts (errors.bind (·.invalidMimeType))
    let arraySchema := zarray fileSchema
    let _ := (options.bind (·.minFiles)).map fun n =>
      zarrayMin arraySchema n (errors.bind (·.tooFewFiles))
    let _ := (options.bind (·.maxFiles)).map fun n =>
      zarrayMax arraySchema n (errors.bind (·.tooManyFiles))
    if arraySchema pre then Except.ok pre else Except.error "invalid input"

/-!
### Helper lemmas
-/

/-- The split link's predicate is exactly the `instanceof FormData` test
on the call's input. -/
theorem formDataLink_condition (ambient : RawFetch) (opts : OptsObj)
    (ov : Option Link) :
    (formDataLink ambient opts ov).condition = fun op => instanceOfFormData op.input :=
  rfl

/-- The split link's false branch is the override when supplied, else the
batching transport over the original options. -/
theorem formDataLink_falseLink (ambient : RawFetch) (opts : OptsObj)
    (ov : Option Link) :
    (formDataLink ambient opts ov).falseLink = ov.getD (Link.httpBatch opts) :=
  rfl

/-- The split link's true branch is the single-request transport over the
derived options: fetch always replaced by the adapter, transformer
replaced exactly when the adjustment guard holds. -/
theorem formDataLink_trueLink (ambient : RawFetch) (opts : OptsObj)
    (ov : Option Link) :
    (formDataLink ambient opts ov).trueLink =
      Link.http
        (if shouldAdjustTransformer opts.transformer then
          { opts with fetch := some (fetchFn ambient opts.fetch),
                      transformer := adjustTransformer opts.transformer }
        else
          { opts with fetch := some (fetchFn ambient opts.fetch) }) := by
  unfold formDataLink
  by_cases hc : shouldAdjustTransformer opts.transformer <;> simp [hc]

/-!
### Claim theorems for the conditional transport link
-/

/-- C1: the link built by `formDataLink` routes a call through the
single-request (multipart) branch exactly when the call's input is an
instance of `FormData`; every other input value — `undefined`, `null`,
booleans, numbers, strings, plain objects — takes the fallback/batching
branch.  The predicate is a total `Bool`-valued function of the input
(`instanceof` never throws), evaluated by `route` before anything else. -/
theorem c1_routing_predicate (ambient : RawFetch) (opts : OptsObj)
    (ov : Option Link) (op : Op) :
    ((formDataLink ambient opts ov).condition op = true ↔
      ∃ entries, op.input = JSValue.formData entries) ∧
    ((formDataLink ambient opts ov).route op =
      if instanceOfFormData op.input then (formDataLink ambient opts ov).trueLink
      else (formDataLink ambient opts ov).falseLink) := by
  constructor
  · rw [formDataLink_condition]
    cases h : op.input <;> simp [instanceOfFormData, h]
  · rfl

/-- C2: header sanitisation.  With the multipart flag set, the result has
no entry whose key is case-sensitively `"Content-Type"`, and every entry
under any other key survives with its original value; with the flag
clear, the header set is returned unchanged; sanitisation is a total
function, and removing an absent key is a no-op. -/
theorem c2_sanitize (H : Headers) :
    (∀ kv ∈ sanitize H true, kv.1 ≠ "Content-Type") ∧
    (∀ k v, k ≠ "Content-Type" → (((k, v) ∈ sanitize H true) ↔ (k, v) ∈ H)) ∧
    sanitize H false = H ∧
    ((∀ kv ∈ H, kv.1 ≠ "Content-Type") → sanitize H true = H) := by
  refine ⟨?_, ?_, rfl, ?_⟩
  · intro kv hkv
    have := List.of_mem_filter hkv
    simpa using this
  · intro k v hk
    simp [sanitize, List.mem_filter, hk]
  · intro h
    have hs : sanitize H true = H.filter (fun kv => kv.1 ≠ "Content-Type") := rfl
    rw [hs]
    apply List.filter_eq_self.mpr
    intro kv hkv
    simpa using h kv hkv

/-- C3: the transformer bypass adjustment.  For an object transformer
with a `deserialize` function, the adjusted transformer keeps the very
same `deserialize` and gets the identity `serialize`; with no transformer
(`undefined`), the adjustment is the identity, and the derived
single-request configuration's transformer remains absent (not an empty
object); `formDataLink` never writes to the caller's transformer (the
object at the caller's heap address keeps its transformer field). -/
theorem c3_transformer_bypass :
    (∀ s d, ∃ f, adjustTransformer (TransformerVal.obj s (some d)) =
        TransformerVal.obj (some f) (some d) ∧ ∀ x, f x = x) ∧
    adjustTransformer TransformerVal.undef = TransformerVal.undef ∧
    (∀ ambient opts ov, opts.transformer = TransformerVal.undef →
      ∃ cfg, (formDataLink ambient opts ov).trueLink = Link.http cfg ∧
        cfg.transformer = TransformerVal.undef ∧
        cfg.fetch = some (fetchFn ambient opts.fetch)) := by
  refine ⟨?_, rfl, ?_⟩
  · intro s d
    exact ⟨fun x => x, rfl, fun _ => rfl⟩
  · intro ambient opts ov h
    have hc : shouldAdjustTransformer opts.transformer = false := by
      rw [h]; rfl
    refine ⟨{ opts with fetch := some (fetchFn ambient opts.fetch) }, ?_, h, rfl⟩
    rw [formDataLink_trueLink, hc]
    simp

/-- C4: the non-multipart branch.  With a caller-supplied fallback link,
that link is used verbatim; without one, the false branch is the batching
transport built from the original, unmodified options — never from the
derived configuration with the adapted fetch or adjusted transformer. -/
theorem c4_false_branch (ambient : RawFetch) (opts : OptsObj) :
    (∀ l, (formDataLink ambient opts (some l)).falseLink = l) ∧
    (formDataLink ambient opts none).falseLink = Link.httpBatch opts := by
  exact ⟨fun l => rfl, rfl⟩

/-- C5: transformer-convention detection.  The adjustment guard treats a
single combined function as not matching (its `typeof` is not
`"object"`), leaves `undefined` and `null` alone, and on an object the
decision is exactly the presence of a `deserialize` function — the
presence or absence of `serialize` is never examined.  A non-matching
transformer value passes through the adjustment unchanged. -/
theorem c5_shape_detection :
    (∀ f, shouldAdjustTransformer (TransformerVal.func f) = false) ∧
    (∀ s d, shouldAdjustTransformer (TransformerVal.obj s d) = d.isSome) ∧
    shouldAdjustTransformer TransformerVal.undef = false ∧
    shouldAdjustTransformer TransformerVal.nullT = false ∧
    (∀ f, adjustTransformer (TransformerVal.func f) = TransformerVal.func f) := by
  exact ⟨fun f => rfl, fun s d => rfl, rfl, rfl, fun f => rfl⟩

/-- C6: the transport-fetch adapter delegates to the user-supplied fetch
when present, else to the ambient platform fetch; it passes the url and
the options with headers replaced by the sanitised set while body,
method and every other option field pass through unchanged; it returns
exactly the delegate's result, so a network failure on the delegate's
error channel propagates to the caller unchanged. -/
theorem c6_fetch_delegation (ambient : RawFetch) (pf : Option RawFetch)
    (url : String) (opts : RequestOptions) :
    (fetchFn ambient pf url (some opts) =
      (pf.getD ambient) url
        (some { opts with headers := sanitize opts.headers opts.body.isFormDataBody })) ∧
    (∀ f, fetchFn ambient (some f) url (some opts) =
      f url
        (some { opts with headers := sanitize opts.headers opts.body.isFormDataBody })) ∧
    (fetchFn ambient none url (some opts) =
      ambient url
        (some { opts with headers := sanitize opts.headers opts.body.isFormDataBody })) ∧
    ({ opts with headers := sanitize opts.headers opts.body.isFormDataBody }).body
        = opts.body ∧
    ({ opts with headers := sanitize opts.headers opts.body.isFormDataBody }).method
        = opts.method ∧
    ({ opts with headers := sanitize opts.headers opts.body.isFormDataBody }).extra
        = opts.extra ∧
    (∀ e, (pf.getD ambient) url
        (some { opts with headers := sanitize opts.headers opts.body.isFormDataBody })
          = Except.error e →
      fetchFn ambient pf url (some opts) = Except.error e) := by
  refine ⟨rfl, fun f => rfl, rfl, rfl, rfl, rfl, ?_⟩
  intro e he
  exact he

/-!
### Heap frame lemmas
-/

/-- Link construction leaves every pre-existing heap cell untouched: the
spread allocates at the fresh address `h.length`, and the only write goes
to that fresh address. -/
theorem formDataLinkHeap_frame (ambient : RawFetch) (h : Heap) (a : Nat)
    (ov : Option Link) (i : Nat) (hi : i < h.length) :
    ((formDataLinkHeap ambient h a ov).1)[i]? = h[i]? := by
  have hne : h.length ≠ i := (Nat.ne_of_lt hi).symm
  unfold formDataLinkHeap Heap.alloc Heap.writeTransformer
  by_cases hc : shouldAdjustTransformer (h.read a).transformer
  · simp only [hc, ite_true]
    rw [List.getElem?_set_ne hne, List.getElem?_append_left hi]
  · simp only [hc, Bool.false_eq_true, ite_false]
    rw [List.getElem?_append_left hi]

/-- The fresh cell holds the derived configuration: the original options
with fetch replaced by the adapter and, exactly when the adjustment guard
holds, the transformer replaced by the bypass adjustment. -/
theorem formDataLinkHeap_derived (ambient : RawFetch) (h : Heap) (a : Nat)
    (ov : Option Link) :
    ((formDataLinkHeap ambient h a ov).1).read h.length =
      (if shouldAdjustTransformer (h.read a).transformer then
        { h.read a with fetch := some (fetchFn ambient (h.read a).fetch),
                        transformer := adjustTransformer (h.read a).transformer }
      else
        { h.read a with fetch := some (fetchFn ambient (h.read a).fetch) }) := by
  have hx : ∀ (x : OptsObj), Heap.read (h ++ [x]) h.length = x := by
    intro x
    unfold Heap.read
    rw [List.getElem?_concat_length]
    rfl
  have hset : ∀ (x y : OptsObj), Heap.read ((h ++ [x]).set h.length y) h.length = y := by
    intro x y
    unfold Heap.read
    rw [List.getElem?_set_self (by simp)]
    rfl
  unfold formDataLinkHeap Heap.alloc Heap.writeTransformer
  by_cases hc : shouldAdjustTransformer (h.read a).transformer
  · simp only [hc, ite_true]
    rw [hx, hset]
  · simp only [hc, Bool.false_eq_true, ite_false]
    rw [hx]

/-- C7: the caller's original configuration object is unchanged by link
construction.  `formDataLink` derives a new configuration (the spread
copy) and its only in-place write targets that fresh copy, so the heap
cell holding the caller's `opts` — like every other pre-existing cell —
is identical before and after. -/
theorem c7_options_not_mutated (ambient : RawFetch) (h : Heap) (a : Nat)
    (ov : Option Link) (ha : a < h.length) :
    ((formDataLinkHeap ambient h a ov).1)[a]? = h[a]? ∧
    Heap.read (formDataLinkHeap ambient h a ov).1 a = h.read a := by
  refine ⟨formDataLinkHeap_frame ambient h a ov a ha, ?_⟩
  unfold Heap.read
  rw [formDataLinkHeap_frame ambient h a ov a ha]

/-- Witness for C7 at a concrete one-cell heap: constructing the link
leaves the caller's options object in place. -/
theorem c7_options_not_mutated_witness :
    ((formDataLinkHeap (fun _ _ => Except.error "down") [OptsObj.defaultObj] 0 none).1)[0]? =
      some OptsObj.defaultObj := by
  have hfr := c7_options_not_mutated (fun _ _ => Except.error "down")
    [OptsObj.defaultObj] 0 none (by decide)
  exact hfr.1.trans rfl

/-- C8: the derived single-request configuration is allocated exactly
once per link construction (the heap grows by exactly one cell), and
every call matching the multipart predicate is routed to the
single-request transport holding that one stored configuration — routing
reads the pre-built branch and never re-derives it, so any two matching
calls see the same link. -/
theorem c8_derived_once (ambient : RawFetch) (h : Heap) (a : Nat) (ov : Option Link) :
    ((formDataLinkHeap ambient h a ov).1.length = h.length + 1) ∧
    (∀ op, instanceOfFormData op.input = true →
      ((formDataLinkHeap ambient h a ov).2).route op =
        Link.http (Heap.read (formDataLinkHeap ambient h a ov).1 h.length)) ∧
    (∀ op op', instanceOfFormData op.input = true → instanceOfFormData op'.input = true →
      ((formDataLinkHeap ambient h a ov).2).route op =
        ((formDataLinkHeap ambient h a ov).2).route op') := by
  have hcond : ∀ op, ((formDataLinkHeap ambient h a ov).2).condition op =
      instanceOfFormData op.input := fun op => rfl
  have hroute : ∀ op, instanceOfFormData op.input = true →
      ((formDataLinkHeap ambient h a ov).2).route op =
        ((formDataLinkHeap ambient h a ov).2).trueLink := by
    intro op hop
    unfold SplitLink.route
    rw [hcond, hop]
    simp
  refine ⟨?_, ?_, ?_⟩
  · unfold formDataLinkHeap Heap.alloc Heap.writeTransformer
    by_cases hc : shouldAdjustTransformer (h.read a).transformer <;> simp [hc]
  · intro op hop
    rw [hroute op hop]
    rfl
  · intro op op' hop hop'
    rw [hroute op hop, hroute op' hop']

/-!
### Claim theorems for `filesSchema` (zod/v4)
-/

/-- On an array input, `filesSchema` filters the `"null"` placeholders
and then checks only the *unconstrained* kept schemas
(`z.array(z.file())`): the combinator results were discarded. -/
theorem filesSchema_arrV (options : Option FilesOptions) (errors : Option FilesErrors)
    (items : List ZVal) :
    filesSchema options errors (ZVal.arrV items) =
      (if (items.filter (fun v => !isNullPlaceholder v)).all zfile then
        Except.ok (ZVal.arrV (items.filter (fun v => !isNullPlaceholder v)))
      else Except.error "invalid input") :=
  rfl

/-- C9: in the zod/v4 variant, every constraint combinator result is
discarded, so `filesSchema` with any options and error messages accepts
exactly what `filesSchema` with no options accepts: an array whose
entries, once the `"null"` placeholders are filtered out, are all `File`
values.  The `minSize`, `maxSize`, `minFiles`, `maxFiles` and
`acceptedMimeTypes` options have no effect on validation. -/
theorem c9_constraints_discarded (options : Option FilesOptions)
    (errors : Option FilesErrors) (val : ZVal) :
    filesSchema options errors val = filesSchema none none val ∧
    (∀ items, filesSchema options errors (ZVal.arrV items) =
      (if (items.filter (fun v => !isNullPlaceholder v)).all zfile then
        Except.ok (ZVal.arrV (items.filter (fun v => !isNullPlaceholder v)))
      else Except.error "invalid input")) ∧
    ((∃ r, filesSchema options errors val = Except.ok r) ↔
      ∃ items, val = ZVal.arrV items ∧
        (items.filter (fun v => !isNullPlaceholder v)).all zfile = true) := by
  refine ⟨by cases val <;> rfl, fun items => filesSchema_arrV options errors items, ?_⟩
  constructor
  · rintro ⟨r, hr⟩
    cases val with
    | arrV items =>
        refine ⟨items, rfl, ?_⟩
        by_cases hall : (items.filter (fun v => !isNullPlaceholder v)).all zfile
        · exact hall
        · rw [filesSchema_arrV, if_neg hall] at hr
          exact Except.noConfusion hr
    | fileV size mime => simp [filesSchema, preprocessFilter] at hr
    | strV s => simp [filesSchema, preprocessFilter] at hr
    | otherV tag => simp [filesSchema, preprocessFilter] at hr
  · rintro ⟨items, rfl, hall⟩
    exact ⟨ZVal.arrV (items.filter (fun v => !isNullPlaceholder v)),
      by rw [filesSchema_arrV, if_pos hall]⟩

/-!
### Round-trip lemmas for `src/util.ts`
-/

/-- Looking up a key that is not among an object's own keys yields
nothing. -/
theorem objLookup_of_fresh (obj : ObjectM) (k : String)
    (hk : k ∉ obj.map Prod.fst) : objLookup obj k = none := by
  induction obj with
  | nil => rfl
  | cons kv rest ih =>
      obtain ⟨k', w⟩ := kv
      simp only [List.map_cons, List.mem_cons] at hk
      push_neg at hk
      simp only [objLookup]
      rw [if_neg (fun h => hk.1 h.symm)]
      exact ih hk.2

/-- Looking up a key stored only in the final position. -/
theorem objLookup_append_fresh (obj : ObjectM) (k : String) (v : FieldValue)
    (hk : k ∉ obj.map Prod.fst) : objLookup (obj ++ [(k, v)]) k = some v := by
  induction obj with
  | nil => simp [objLookup]
  | cons kv rest ih =>
      obtain ⟨k', w⟩ := kv
      simp only [List.map_cons, List.mem_cons] at hk
      push_neg at hk
      simp only [List.cons_append, objLookup]
      rw [if_neg (fun h => hk.1 h.symm)]
      exact ih hk.2

/-- Assigning to a key stored only in the final position overwrites that
final entry in place. -/
theorem objSet_append_fresh (obj : ObjectM) (k : String) (v w : FieldValue)
    (hk : k ∉ obj.map Prod.fst) : objSet (obj ++ [(k, v)]) k w = obj ++ [(k, w)] := by
  induction obj with
  | nil => simp [objSet]
  | cons kv rest ih =>
      obtain ⟨k', x⟩ := kv
      simp only [List.map_cons, List.mem_cons] at hk
      push_neg at hk
      simp only [List.cons_append, objSet]
      rw [if_neg (fun h => hk.1 h.symm)]
      exact congrArg (fun t => (k', x) :: t) (ih hk.2)

/-- Assigning to an absent key appends the new entry. -/
theorem objSet_fresh (obj : ObjectM) (k : String) (v : FieldValue)
    (hk : k ∉ obj.map Prod.fst) : objSet obj k v = obj ++ [(k, v)] := by
  induction obj with
  | nil => rfl
  | cons kv rest ih =>
      obtain ⟨k', w⟩ := kv
      simp only [List.map_cons, List.mem_cons] at hk
      push_neg at hk
      simp only [objSet, List.cons_append]
      rw [if_neg (fun h => hk.1 h.symm), ih hk.2]

/-- When the key owns an array, the step pushes the new value: the `in`
test succeeds via the own property and `Array.isArray` holds. -/
theorem formDataEntryStep_own_arr (obj : ObjectM) (k value : String)
    (items : List JsItem) (h : objLookup obj k = some (FieldValue.arr items)) :
    formDataEntryStep obj k value =
      objSet obj k (FieldValue.arr (items ++ [JsItem.str value])) := by
  unfold formDataEntryStep keyInObj
  rw [h]
  simp

/-- When the key owns a non-array, the step wraps old and new in an
array. -/
theorem formDataEntryStep_own_str (obj : ObjectM) (k value : String)
    (old : String) (h : objLookup obj k = some (FieldValue.str old)) :
    formDataEntryStep obj k value =
      objSet obj k (FieldValue.arr [JsItem.str old, JsItem.str value]) := by
  unfold formDataEntryStep keyInObj
  rw [h]
  simp

/-- When the key is neither an own property nor an `Object.prototype`
property, the `in` test fails and the step stores the bare value. -/
theorem formDataEntryStep_absent (obj : ObjectM) (k value : String)
    (h : objLookup obj k = none) (hp : k ∉ objectProtoKeys) :
    formDataEntryStep obj k value = objSet obj k (FieldValue.str value) := by
  unfold formDataEntryStep keyInObj
  rw [h]
  simp [hp]

/-- The entry step on a fully fresh key (no own property, no prototype
collision) appends the bare string value. -/
theorem formDataEntryStep_fresh (obj : ObjectM) (k value : String)
    (hk : k ∉ obj.map Prod.fst) (hp : k ∉ objectProtoKeys) :
    formDataEntryStep obj k value = obj ++ [(k, FieldValue.str value)] := by
  rw [formDataEntryStep_absent obj k value (objLookup_of_fresh obj k hk) hp]
  exact objSet_fresh obj k _ hk

/-- Processing one entry of the loop unfolds one fold step. -/
theorem entryFold_cons (obj : ObjectM) (k v : String) (fd : FormDataM) :
    entryFold obj ((k, v) :: fd) = entryFold (formDataEntryStep obj k v) fd :=
  rfl

/-- The loop over concatenated entry lists is the composition of the
loops. -/
theorem entryFold_append (obj : ObjectM) (a b : FormDataM) :
    entryFold obj (a ++ b) = entryFold (entryFold obj a) b := by
  simp [entryFold]

/-- Once a key fresh for `obj` holds an array at the final position, each
further entry under that key pushes its string onto that array. -/
theorem entryFold_push_fresh (obj : ObjectM) (k : String)
    (hk : k ∉ obj.map Prod.fst) (vs : List String) : ∀ l : List JsItem,
    entryFold (obj ++ [(k, FieldValue.arr l)]) (vs.map (fun v => (k, v))) =
      obj ++ [(k, FieldValue.arr (l ++ vs.map JsItem.str))] := by
  induction vs with
  | nil => intro l; simp [entryFold]
  | cons v vs ih =>
      intro l
      have hstep : formDataEntryStep (obj ++ [(k, FieldValue.arr l)]) k v =
          obj ++ [(k, FieldValue.arr (l ++ [JsItem.str v]))] := by
        rw [formDataEntryStep_own_arr _ _ _ _ (objLookup_append_fresh obj k _ hk)]
        exact objSet_append_fresh obj k _ _ hk
      simp only [List.map_cons]
      rw [entryFold_cons, hstep, ih (l ++ [JsItem.str v])]
      simp

/-- Folding all the entries a single fully fresh key contributes: no
entries leave the object unchanged, one entry stores the bare string, two
or more build the array of strings in order — exactly the collapse of the
original string-array field. -/
theorem entryFold_arr_fresh (obj : ObjectM) (k : String)
    (hk : k ∉ obj.map Prod.fst) (hp : k ∉ objectProtoKeys) (items : List String) :
    entryFold obj (items.map (fun v => (k, v))) =
      obj ++ collapseValue k (FieldValue.arr (items.map JsItem.str)) := by
  match items with
  | [] => simp [entryFold, collapseValue]
  | [v] =>
      simp only [List.map_cons, List.map_nil]
      rw [entryFold_cons]
      have h0 : entryFold (formDataEntryStep obj k v) [] = formDataEntryStep obj k v := rfl
      rw [h0, formDataEntryStep_fresh obj k v hk hp]
      rfl
  | v1 :: v2 :: rest =>
      simp only [List.map_cons]
      rw [entryFold_cons, formDataEntryStep_fresh obj k v1 hk hp, entryFold_cons]
      have hstep2 : formDataEntryStep (obj ++ [(k, FieldValue.str v1)]) k v2 =
          obj ++ [(k, FieldValue.arr [JsItem.str v1, JsItem.str v2])] := by
        rw [formDataEntryStep_own_str _ _ _ _ (objLookup_append_fresh obj k _ hk)]
        exact objSet_append_fresh obj k _ _ hk
      rw [hstep2, entryFold_push_fresh obj k hk rest [JsItem.str v1, JsItem.str v2]]
      rfl

/-- Every key contributed by a collapsed field is the field's own key. -/
theorem collapseValue_keys (k : String) (fv : FieldValue) (k' : String)
    (h : k' ∈ (collapseValue k fv).map Prod.fst) : k' = k := by
  cases fv with
  | str s => simpa [collapseValue] using h
  | arr items =>
      match items with
      | [] => simp [collapseValue] at h
      | [JsItem.str v] => simpa [collapseValue] using h
      | [JsItem.builtinFn b] => simpa [collapseValue] using h
      | i1 :: i2 :: rest => simpa [collapseValue] using h

/-- A plain array value is an array of strings. -/
theorem plain_arr_strings (items : List JsItem)
    (h : (FieldValue.arr items).plain = true) :
    ∃ ss : List String, items = ss.map JsItem.str := by
  induction items with
  | nil => exact ⟨[], rfl⟩
  | cons i rest ih =>
      simp only [FieldValue.plain, List.all_cons, Bool.and_eq_true] at h
      obtain ⟨hi, hrest⟩ := h
      cases i with
      | str s =>
          obtain ⟨ss, hss⟩ := ih (by simpa [FieldValue.plain] using hrest)
          exact ⟨s :: ss, by rw [List.map_cons, hss]⟩
      | builtinFn b => simp at hi

/-- The main induction: folding the flattened entries of an object `d`
with pairwise-distinct keys, none colliding with `Object.prototype`
property names, values strings or arrays of strings, all keys fresh for
the accumulated object, appends the field-wise collapse of `d`. -/
theorem entryFold_objectToFormData (d : ObjectM) : ∀ obj : ObjectM,
    (d.map Prod.fst).Nodup →
    (∀ k ∈ d.map Prod.fst, k ∉ objectProtoKeys) →
    (∀ kv ∈ d, kv.2.plain = true) →
    (∀ k ∈ d.map Prod.fst, k ∉ obj.map Prod.fst) →
    entryFold obj (objectToFormData d) = obj ++ collapseObject d := by
  induction d with
  | nil =>
      intro obj _ _ _ _
      simp [entryFold, objectToFormData, collapseObject]
  | cons kv rest ih =>
      obtain ⟨k, fv⟩ := kv
      intro obj hnd hproto hplain hdisj
      have hnd' : (rest.map Prod.fst).Nodup := by
        simp only [List.map_cons, List.nodup_cons] at hnd
        exact hnd.2
      have hknotrest : k ∉ rest.map Prod.fst := by
        simp only [List.map_cons, List.nodup_cons] at hnd
        exact hnd.1
      have hk : k ∉ obj.map Prod.fst := hdisj k (by simp)
      have hkp : k ∉ objectProtoKeys := hproto k (by simp)
      have hproto' : ∀ k' ∈ rest.map Prod.fst, k' ∉ objectProtoKeys :=
        fun k' hk' => hproto k' (by simp [hk'])
      have hplain' : ∀ kv ∈ rest, kv.2.plain = true :=
        fun kv hkv => hplain kv (by simp [hkv])
      have hdisj' : ∀ k' ∈ rest.map Prod.fst,
          k' ∉ (obj ++ collapseValue k fv).map Prod.fst := by
        intro k' hk' hmem
        rw [List.map_append, List.mem_append] at hmem
        rcases hmem with hmem | hmem
        · exact hdisj k' (by simp [hk']) hmem
        · exact hknotrest (collapseValue_keys k fv k' hmem ▸ hk')
      have hcoll : collapseObject ((k, fv) :: rest) =
          collapseValue k fv ++ collapseObject rest := rfl
      cases fv with
      | str s =>
          have hobj : objectToFormData ((k, FieldValue.str s) :: rest) =
              (k, s) :: objectToFormData rest := rfl
          rw [hobj, entryFold_cons, formDataEntryStep_fresh obj k s hk hkp,
            ih (obj ++ [(k, FieldValue.str s)]) hnd' hproto' hplain' hdisj', hcoll]
          simp [collapseValue]
      | arr items =>
          obtain ⟨ss, hss⟩ :=
            plain_arr_strings items (hplain (k, FieldValue.arr items) (by simp))
          subst hss
          have hobj : objectToFormData ((k, FieldValue.arr (ss.map JsItem.str)) :: rest) =
              ss.map (fun v => (k, v)) ++ objectToFormData rest := by
            have h1 : objectToFormData ((k, FieldValue.arr (ss.map JsItem.str)) :: rest) =
                (ss.map JsItem.str).map (fun item => (k, jsItemToString item)) ++
                  objectToFormData rest := rfl
            rw [h1, List.map_map]
            rfl
          rw [hobj, entryFold_append, entryFold_arr_fresh obj k hk hkp ss,
            ih (obj ++ collapseValue k (FieldValue.arr (ss.map JsItem.str)))
              hnd' hproto' hplain' hdisj', hcoll]
          simp

/-- C10 counterexample: the round trip does *not* return the field-wise
collapse on every string-valued object.  For `{"toString": "x"}` the
rebuild's `"toString" in obj` test is true on the empty accumulator —
`toString` is inherited from `Object.prototype` — so the key-present
branch runs, `obj[key]` reads the inherited builtin (not an array), and
the code stores `[Object.prototype.toString, "x"]` in place of the bare
string. -/
theorem c10_round_trip_counterexample :
    formDataToObject (objectToFormData [("toString", FieldValue.str "x")]) =
      [("toString", FieldValue.arr [JsItem.builtinFn "toString", JsItem.str "x"])] ∧
    formDataToObject (objectToFormData [("toString", FieldValue.str "x")]) ≠
      collapseObject [("toString", FieldValue.str "x")] := by
  exact ⟨by decide, by decide⟩

/-- C10 (amended): the round trip `formDataToObject ∘ objectToFormData`
on an object whose values are strings or arrays of strings, whose keys
are pairwise distinct, and none of whose keys names an `Object.prototype`
property returns the object with every one-element array value collapsed
to its bare element and every empty-array value dropped; scalar strings
and arrays of two or more elements round-trip unchanged, in the original
key order.  (A key naming an `Object.prototype` property breaks the round
trip: the inherited member leaks into the rebuilt value.) -/
theorem c10_round_trip (d : ObjectM) (hnd : (d.map Prod.fst).Nodup)
    (hproto : ∀ k ∈ d.map Prod.fst, k ∉ objectProtoKeys)
    (hplain : ∀ kv ∈ d, kv.2.plain = true) :
    formDataToObject (objectToFormData d) = collapseObject d := by
  have h := entryFold_objectToFormData d [] hnd hproto hplain (by intro k _; simp)
  simpa [formDataToObject] using h

/-- Witness for the amended C10 at a concrete object exercising all four
value shapes: scalar, one-element array, empty array, two-element
array. -/
theorem c10_round_trip_witness :
    formDataToObject (objectToFormData
      [("a", FieldValue.str "x"), ("b", FieldValue.arr [JsItem.str "y"]),
       ("c", FieldValue.arr []),
       ("d", FieldValue.arr [JsItem.str "u", JsItem.str "v"])]) =
      [("a", FieldValue.str "x"), ("b", FieldValue.str "y"),
       ("d", FieldValue.arr [JsItem.str "u", JsItem.str "v"])] :=
  (c10_round_trip
    [("a", FieldValue.str "x"), ("b", FieldValue.arr [JsItem.str "y"]),
     ("c", FieldValue.arr []),
     ("d", FieldValue.arr [JsItem.str "u", JsItem.str "v"])]
    (by decide) (by decide) (by decide)).trans (by decide)
